import Mathlib

/-!
Verification development for the IsochroneGenerator repository
(`isochrone_generator.py`).

The Python source is shallowly embedded: Python strings become `List Char`,
Python floats become `ℚ` (the claims under study are about the arithmetic
formulas, not floating-point rounding), fallible code returns `Option`
(`none` models an uncaught exception), and the road network becomes an
explicit list-based multigraph.  Third-party collaborators (`networkx`,
`osmnx`, `alphashape`, `shapely`) are embedded at the level of their
documented semantics, parameterised by oracles where the repository's
behaviour does not depend on their internals.
-/

/-! ## Python string primitives

`__parse_max_speed_to_kmh` uses `str.lower`, `str.strip`, `str.split`,
substring containment (`"mph" in s`) and `int(...)`.  These are modelled
over `List Char` for the ASCII range actually exercised by speed
annotations (Unicode case folding, exotic whitespace and underscore digit
separators of Python's `int` are outside the modelled fragment). -/

/-- Python strings, modelled as lists of characters. -/
abbrev PyStr := List Char

/-- The ASCII whitespace characters recognised by Python's `str.strip` /
`str.split`. -/
def pyIsSpace (c : Char) : Bool :=
  c == ' ' || c == '\t' || c == '\n' || c == '\r' || c == '\x0b' || c == '\x0c'

/-- Python `str.lower` (ASCII fragment). -/
def pyLower (s : PyStr) : PyStr :=
  s.map Char.toLower

/-- Python `str.strip()`: drop leading and trailing whitespace. -/
def pyStrip (s : PyStr) : PyStr :=
  ((s.dropWhile pyIsSpace).reverse.dropWhile pyIsSpace).reverse

/-- Worker for `pySplit`: `acc` holds the current word, reversed. -/
def splitAux (acc : List Char) : List Char → List PyStr
  | [] => if acc.isEmpty then [] else [acc.reverse]
  | c :: cs =>
    if pyIsSpace c then
      if acc.isEmpty then splitAux [] cs else acc.reverse :: splitAux [] cs
    else
      splitAux (c :: acc) cs

/-- Python `str.split()` with no arguments: split on runs of whitespace,
discarding empty words. -/
def pySplit (s : PyStr) : List PyStr :=
  splitAux [] s

/-- Does `hay` start with `needle`? -/
def startsWithL : List Char → List Char → Bool
  | [], _ => true
  | _ :: _, [] => false
  | a :: as, b :: bs => a == b && startsWithL as bs

/-- Python substring containment `needle in hay`. -/
def hasSub (needle : List Char) : List Char → Bool
  | [] => needle.isEmpty
  | c :: rest => startsWithL needle (c :: rest) || hasSub needle rest

/-- Numeric value of a list of decimal digit characters. -/
def digitsToNat (ds : List Char) : ℕ :=
  ds.foldl (fun a c => 10 * a + (c.toNat - 48)) 0

/-- Parse a nonempty all-digit character list. -/
def digitsVal? (ds : List Char) : Option ℕ :=
  if !ds.isEmpty && ds.all Char.isDigit then some (digitsToNat ds) else none

/-- Python `int(s)` (decimal fragment): surrounding whitespace is ignored,
an optional single sign precedes the digits; `none` models `ValueError`. -/
def pyInt? (s : PyStr) : Option ℤ :=
  match pyStrip s with
  | [] => none
  | c :: ds =>
    if c = '+' then (digitsVal? ds).map fun n => (n : ℤ)
    else if c = '-' then (digitsVal? ds).map fun n => -(n : ℤ)
    else (digitsVal? (c :: ds)).map fun n => (n : ℤ)

/-! ## Speed resolution (`IsochroneGenerator.__parse_max_speed_to_kmh`) -/

/-- The character list of the literal `'none'`. -/
def noneChars : PyStr := ['n', 'o', 'n', 'e']

/-- The character list of the literal `"mph"`. -/
def mphChars : PyStr := ['m', 'p', 'h']

/-- The `self.DEFAULT_SPEED = 48.28` constant set in `__init__`. -/
def DEFAULT_SPEED : ℚ := 4828 / 100

/-- The `1.60934` mph-to-km/h factor of `__parse_max_speed_to_kmh`. -/
def mphFactor : ℚ := 160934 / 100000

/-- Embedding of `IsochroneGenerator.__parse_max_speed_to_kmh`.  The
result is `none` when the Python code would raise an uncaught exception
(`max_speed.split()[0]` on an empty split; the `ValueError` of `int` is
caught by the source and mapped to the default).  Mirrors the source
line by line: the `'none'`/blank guard, the substring test `"mph" in
max_speed` on the whole string, `int(max_speed.split()[0])`, and the
final `speed if speed else self.DEFAULT_SPEED` zero-fallback. -/
def parseMaxSpeedToKmh (s : PyStr) : Option ℚ :=
  if pyLower s = noneChars ∨ pyStrip s = [] then
    some DEFAULT_SPEED
  else
    match (pySplit s).head? with
    | none => none
    | some tok =>
      let conversion : ℚ := if hasSub mphChars s then mphFactor else 1
      let speed : ℚ :=
        match pyInt? tok with
        | some n => (n : ℚ) * conversion
        | none => DEFAULT_SPEED
      some (if speed = 0 then DEFAULT_SPEED else speed)

/-- A raw `maxspeed` edge annotation: absent, a single string, or a list
of strings (the three shapes handled by `__update_graph_with_times`). -/
inductive SpeedAnn where
  | absent : SpeedAnn
  | str : PyStr → SpeedAnn
  | strs : List PyStr → SpeedAnn
deriving DecidableEq

/-- Embedding of the speed-resolution branch of
`IsochroneGenerator.__update_graph_with_times` (lines 78–84): the walrus
`if max_speed := data.get("maxspeed")` treats a missing key, an empty
string and an empty list alike as falsy (default speed); a list is
resolved element-wise and averaged; a single string is parsed. -/
def resolveSpeedAnn : SpeedAnn → Option ℚ
  | .absent => some DEFAULT_SPEED
  | .str s => if s.isEmpty then some DEFAULT_SPEED else parseMaxSpeedToKmh s
  | .strs l =>
    if l.isEmpty then some DEFAULT_SPEED
    else (l.mapM parseMaxSpeedToKmh).map fun qs => qs.sum / (l.length : ℚ)

/-! ## The road-network graph and time annotation -/

/-- A 2D position (pair of rationals). -/
abbrev P := ℚ × ℚ

/-- Node attribute data: the `x`/`y` coordinates osmnx stores on every
node, plus the optional `position` attribute read by `graph_to_geojson`
(absent on graphs loaded from OpenStreetMap). -/
structure NodeData where
  x : ℚ
  y : ℚ
  position : Option P := none
deriving DecidableEq

/-- A directed segment of the multigraph, with the attributes the
repository reads: `length`, the raw `maxspeed` annotation, the optional
`geometry` polyline, the optional road `name`, and the derived `time`
written by `__update_graph_with_times` (0 before that pass runs). -/
structure Edge where
  u : ℕ
  v : ℕ
  length : ℚ
  maxspeed : SpeedAnn := .absent
  geometry : Option (List P) := none
  name : Option PyStr := none
  time : ℚ := 0
deriving DecidableEq

/-- A directed multigraph: nodes carry data, edges are a list (parallel
edges and self-loops allowed, as in a networkx `MultiDiGraph`). -/
structure Graph where
  nodes : List (ℕ × NodeData)
  edges : List Edge
deriving DecidableEq

/-- The node identifiers of a graph. -/
def Graph.ids (G : Graph) : List ℕ :=
  G.nodes.map Prod.fst

/-- Time annotation of one edge, from the body of
`__update_graph_with_times` (lines 77–87): resolve the speed, convert to
meters per minute, divide.  `none` models the `ZeroDivisionError` Python
raises when the resolved speed is zero (possible for list annotations
whose mean is zero). -/
def updateEdgeTime (e : Edge) : Option Edge :=
  (resolveSpeedAnn e.maxspeed).bind fun speed =>
    let metersPerMinute := speed * 1000 / 60
    if metersPerMinute = 0 then none
    else some { e with time := e.length / metersPerMinute }

/-- Embedding of `IsochroneGenerator.__update_graph_with_times`: annotate
every edge with its traversal time. -/
def updateGraphWithTimes (G : Graph) : Option Graph :=
  (G.edges.mapM updateEdgeTime).map fun es => { G with edges := es }

/-! ## Reachability (`nx.ego_graph` with `distance='time'`)

`generate_isochrone` (line 144) calls
`nx.ego_graph(self.G, self.center_node, radius=max_drive_time,
distance='time')`.  networkx documents this as the induced subgraph on
all nodes whose Dijkstra shortest-path distance (under the given edge
weight, taking the minimum over parallel edges) is at most `radius`.
For the nonnegative weights produced by the time annotation, Dijkstra
computes exactly the minimum total weight over paths, which is attained
on a simple path; the embedding below defines that minimum directly by
enumerating simple paths. -/

/-- The distinct out-neighbours of `u`. -/
def outNbrs (G : Graph) (u : ℕ) : List ℕ :=
  ((G.edges.filter fun e => e.u == u).map Edge.v).dedup

/-- The minimum `time` over the parallel edges from `u` to `v`
(`none` when there is no such edge), as networkx's Dijkstra uses for a
`MultiDiGraph`. -/
def minEdgeTime (G : Graph) (u v : ℕ) : Option ℚ :=
  ((G.edges.filter fun e => e.u == u && e.v == v).map Edge.time).min?

/-- All simple paths that extend the reversed path `rev` (whose head is
`cur`), bounded by `fuel` extension steps.  Every emitted list is a
reversed path ending at the start node. -/
def spGo (G : Graph) : ℕ → ℕ → List ℕ → List (List ℕ)
  | 0, _, rev => [rev]
  | fuel + 1, cur, rev =>
    rev ::
      (((outNbrs G cur).filter fun v => !rev.contains v).flatMap fun v =>
        spGo G fuel v (v :: rev))

/-- All simple paths out of `s`, reversed (head = endpoint, last = `s`).
`G.nodes.length` extension steps suffice for every simple path. -/
def simplePathsRev (G : Graph) (s : ℕ) : List (List ℕ) :=
  spGo G G.nodes.length s [s]

/-- Total `time` of a reversed path (`none` when some step has no edge). -/
def revPathCost (G : Graph) : List ℕ → Option ℚ
  | [] => some 0
  | [_] => some 0
  | v :: u :: rest =>
    (minEdgeTime G u v).bind fun w =>
      (revPathCost G (u :: rest)).map fun c => w + c

/-- Shortest time-distance from `s` to `t`: the minimum path cost over
simple paths, i.e. the value networkx's Dijkstra assigns to `t` (and
`none` when `t` is unreachable). -/
def distOpt (G : Graph) (s t : ℕ) : Option ℚ :=
  (((simplePathsRev G s).filter fun p => p.head? == some t).filterMap
    (revPathCost G)).min?

/-- The nodes within time-distance `b` of `s`: the key set of
`nx.single_source_dijkstra_path_length(G, s, cutoff=b, weight='time')`. -/
def egoNodes (G : Graph) (s : ℕ) (b : ℚ) : List ℕ :=
  G.ids.filter fun v =>
    match distOpt G s v with
    | some d => decide (d ≤ b)
    | none => false

/-- The node-induced subgraph on the node set `ns` (networkx
`G.subgraph(ns)`): all listed nodes with identifier in `ns`, and all
edges both of whose endpoints lie in `ns` — including self-loops and
parallel edges. -/
def subgraphInduced (G : Graph) (ns : List ℕ) : Graph :=
  { nodes := G.nodes.filter fun nd => ns.contains nd.1
    edges := G.edges.filter fun e => ns.contains e.u && ns.contains e.v }

/-- Embedding of `nx.ego_graph(G, s, radius=b, distance='time')` as used
at line 144 of `isochrone_generator.py`. -/
def egoGraph (G : Graph) (s : ℕ) (b : ℚ) : Graph :=
  subgraphInduced G (egoNodes G s b)

/-! ## Geometries and the boundary extraction of `generate_isochrone` -/

/-- The shapely geometries that can flow through `generate_isochrone` /
`generate_shortest_paths`: the payload is the coordinate data the
repository reads. -/
inductive Geom where
  | point : P → Geom
  | lineString : List P → Geom
  | polygon : List P → Geom
  | multiPolygon : List (List P) → Geom
  | geometryCollection : List P → Geom
deriving DecidableEq

/-- The shapely `geom_type` strings, as an enumeration. -/
inductive GeomType where
  | point | lineString | polygon | multiPolygon | geometryCollection
deriving DecidableEq

/-- The `geom_type` attribute of a geometry. -/
def Geom.geomType : Geom → GeomType
  | .point _ => .point
  | .lineString _ => .lineString
  | .polygon _ => .polygon
  | .multiPolygon _ => .multiPolygon
  | .geometryCollection _ => .geometryCollection

/-- Python truthiness of a shapely geometry: `bool(g)` is `False` exactly
for empty geometries. -/
def Geom.truthy : Geom → Bool
  | .point _ => true
  | .lineString ps => !ps.isEmpty
  | .polygon ring => !ring.isEmpty
  | .multiPolygon parts => !parts.isEmpty
  | .geometryCollection gs => !gs.isEmpty

/-- Model of the `alphashape.alphashape` shortcut for small inputs: for
fewer than 4 points the library returns
`shapely.MultiPoint(points).convex_hull`, which for at most two distinct
points is an empty GeometryCollection, a Point, or a LineString.  The
cases this development never exercises (three or more distinct points,
or four and more points, where the library runs a Delaunay
triangulation) are left to the oracle parameters `hullRest` and
`delaunay`. -/
def alphashapeModel (hullRest : List P → Geom) (delaunay : List P → ℚ → Geom)
    (points : List P) (alpha : ℚ) : Geom :=
  if points.length < 4 then
    match points.dedup with
    | [] => .geometryCollection []
    | [p] => .point p
    | [p, q] => .lineString [p, q]
    | _ => hullRest points
  else delaunay points alpha

/-- The boundary-extraction tail of `IsochroneGenerator.generate_isochrone`
(lines 155–159), parameterised by the `alphashape.alphashape`
collaborator: compute the alpha shape at `alpha=30`; if the result is
truthy and a MultiPolygon, recompute at `alpha=20`. -/
def isochronePolys (ashape : List P → ℚ → Geom) (points : List P) : Geom :=
  let polys := ashape points 30
  if polys.truthy && (polys.geomType == GeomType.multiPolygon) then
    ashape points 20
  else polys

/-- The alpha values `generate_isochrone` passes to
`alphashape.alphashape`, in call order (lines 155 and 159). -/
def isochroneAlphas (ashape : List P → ℚ → Geom) (points : List P) : List ℚ :=
  let polys := ashape points 30
  if polys.truthy && (polys.geomType == GeomType.multiPolygon) then
    [30, 20]
  else [30]

/-! ## Route extraction (`generate_shortest_paths`, lines 209–220)

The loop computes, for each boundary node, `nx.shortest_path(...,
weight='length')` — a by-length shortest path — with no exception
handling: a `networkx.NetworkXNoPath` raised for any boundary node
propagates out of `generate_shortest_paths`, modelled by `Option` and
`mapM`. -/

/-- The minimum `length` over the parallel edges from `u` to `v`. -/
def minEdgeLen (G : Graph) (u v : ℕ) : Option ℚ :=
  ((G.edges.filter fun e => e.u == u && e.v == v).map Edge.length).min?

/-- Total `length` of a reversed path. -/
def revPathLen (G : Graph) : List ℕ → Option ℚ
  | [] => some 0
  | [_] => some 0
  | v :: u :: rest =>
    (minEdgeLen G u v).bind fun w =>
      (revPathLen G (u :: rest)).map fun c => w + c

/-- Choose the entry with the least cost (first component). -/
def minByCost (l : List (ℚ × List ℕ)) : Option (ℚ × List ℕ) :=
  l.foldl
    (fun acc x =>
      match acc with
      | none => some x
      | some y => if x.1 < y.1 then some x else some y)
    none

/-- Embedding of `nx.shortest_path(G, source=s, target=t, weight='length')`:
a minimum-total-length path from `s` to `t` in node order, `none` when
`t` is unreachable (networkx raises `NetworkXNoPath`). -/
def shortestPathByLength (G : Graph) (s t : ℕ) : Option (List ℕ) :=
  (minByCost
      (((simplePathsRev G s).filter fun p => p.head? == some t).filterMap
        fun p => (revPathLen G p).map fun c => (c, p))).map
    fun x => x.2.reverse

/-- Coordinates `(y, x)` of a node, as `generate_shortest_paths` line 216
reads them (`none` models the `KeyError` of a missing node). -/
def nodeYX (G : Graph) (n : ℕ) : Option P :=
  (G.nodes.find? fun nd => nd.1 == n).map fun nd => (nd.2.y, nd.2.x)

/-- Embedding of the route loop of
`IsochroneGenerator.generate_shortest_paths` (lines 209–220): one
polyline per boundary node, each the by-length shortest path from the
center node; the whole call fails (`none`) as soon as any single
shortest-path computation raises. -/
def generateShortestPaths (sub : Graph) (center : ℕ) (boundaryNodes : List ℕ) :
    Option (List (List P)) :=
  boundaryNodes.mapM fun n =>
    (shortestPathByLength sub center n).bind fun route =>
      route.mapM (nodeYX sub)

/-! ## Network export (`graph_to_geojson`, lines 223–263) -/

/-- A GeoJSON feature as emitted by `graph_to_geojson`: a LineString
feature per edge (with `from`, `to`, `road_name` properties) or a Point
feature per node (with `node_id`). -/
inductive Feature where
  | line : List P → ℕ → ℕ → PyStr → Feature
  | pointF : P → ℕ → Feature
deriving DecidableEq

/-- The character list of the literal `"Unknown road"`. -/
def unknownRoad : PyStr := "Unknown road".toList

/-- Is a feature a LineString feature? -/
def Feature.isLine : Feature → Bool
  | .line _ _ _ _ => true
  | .pointF _ _ => false

/-- Embedding of `IsochroneGenerator.graph_to_geojson`: edges are
emitted only when `data.get("geometry")` is truthy (an edge without a
`geometry` attribute is skipped by the `if geometry:` guard), with
`road_name` defaulting to `"Unknown road"`; nodes are emitted only when
they carry a `position` attribute. -/
def graphToGeojson (g : Graph) : List Feature :=
  (g.edges.filterMap fun e =>
    e.geometry.map fun geom => Feature.line geom e.u e.v (e.name.getD unknownRoad))
  ++ (g.nodes.filterMap fun nd =>
    nd.2.position.map fun p => Feature.pointF p nd.1)

/-! ## The memoized `generate_isochrone` (lines 128–178)

`generate_isochrone` is decorated with `functools.lru_cache(maxsize=128)`;
on the same generator instance the cache key is the argument triple
`(lat, lon, max_drive_time)`.  On a hit the body does not run (so
`self.G` is not consulted); on a miss the body runs against the current
graph, stores `center_node` / `sub_graph` / `polys` on the instance, and
the result enters the cache, evicting beyond 128 entries. -/

/-- A cache key: the `(lat, lon, max_drive_time)` argument triple. -/
abbrev CKey := ℚ × ℚ × ℚ

/-- Mutable state of one `IsochroneGenerator` instance: the graph and the
instance attributes written by `generate_isochrone`, plus the per-method
lru cache (most recent first). -/
structure GenState where
  g : Graph
  centerNode : Option ℕ := none
  subGraph : Option Graph := none
  polys : Option Geom := none
  cache : List (CKey × Geom) := []
deriving DecidableEq

/-- Look a key up in the cache. -/
def cacheLookup (c : List (CKey × Geom)) (k : CKey) : Option Geom :=
  (c.find? fun e => decide (e.1 = k)).map Prod.snd

/-- The body of `generate_isochrone` (lines 143–178): nearest node,
time-bounded ego graph, node coordinates, alpha-shape boundary with the
one MultiPolygon retry.  `nearest` is the `ox.distance.nearest_nodes`
collaborator, `ashape` the `alphashape.alphashape` collaborator. -/
def generateIsochroneBody (nearest : Graph → ℚ → ℚ → ℕ)
    (ashape : List P → ℚ → Geom) (g : Graph) (lat lon t : ℚ) :
    ℕ × Graph × Geom :=
  let c := nearest g lon lat
  let sub := egoGraph g c t
  let points := sub.nodes.map fun nd => (nd.2.x, nd.2.y)
  (c, sub, isochronePolys ashape points)

/-- `generate_isochrone` under `functools.lru_cache(maxsize=128)`: on a
hit return the cached polygon (the body is skipped, the hit entry moves
to the front); on a miss run the body against the current `self.G`,
update the instance attributes, and insert the result, keeping at most
128 entries. -/
def generateIsochroneCached (nearest : Graph → ℚ → ℚ → ℕ)
    (ashape : List P → ℚ → Geom) (s : GenState) (lat lon t : ℚ) :
    Geom × GenState :=
  match cacheLookup s.cache (lat, lon, t) with
  | some r =>
    (r, { s with cache := ((lat, lon, t), r) ::
          s.cache.filter fun e => !decide (e.1 = (lat, lon, t)) })
  | none =>
    let r := generateIsochroneBody nearest ashape s.g lat lon t
    (r.2.2,
      { s with
        centerNode := some r.1
        subGraph := some r.2.1
        polys := some r.2.2
        cache := (((lat, lon, t), r.2.2) :: s.cache).take 128 })

/-! ## Concrete inputs used by the counterexample and witness theorems -/

/-- The single-string annotation `"-30"` (a negative speed limit). -/
def negThirty : PyStr := "-30".toList

/-- The single-string annotation `"30 kmph"`: its unit token is `"kmph"`,
not `"mph"`, yet the string contains `"mph"` as a substring. -/
def thirtyKmph : PyStr := "30 kmph".toList

/-- The single-string annotation `"50"`. -/
def fifty : PyStr := "50".toList

/-- A one-edge graph whose only segment is annotated `"-30"`. -/
def exNegGraph : Graph :=
  { nodes := [(0, { x := 0, y := 0 }), (1, { x := 1, y := 1 })]
    edges := [{ u := 0, v := 1, length := 100, maxspeed := .str negThirty }] }

/-- A one-node graph with a positive-time self-loop at node 0. -/
def exLoopGraph : Graph :=
  { nodes := [(0, { x := 0, y := 0 })]
    edges := [{ u := 0, v := 0, length := 10, time := 1 }] }

/-- A three-node graph with times and lengths: node 2 is unreachable from
node 0, node 1 is reachable. -/
def exRouteGraph : Graph :=
  { nodes := [(0, { x := 0, y := 0 }), (1, { x := 1, y := 0 }),
              (2, { x := 5, y := 5 })]
    edges := [{ u := 0, v := 1, length := 100, time := 2 }] }

/-- A two-node graph whose single segment has no `geometry` attribute. -/
def exNoGeomGraph : Graph :=
  { nodes := [(0, { x := 0, y := 0 }), (1, { x := 1, y := 1 })]
    edges := [{ u := 0, v := 1, length := 100 }] }

/-- An `alphashape` oracle that fragments at `alpha = 30`: it returns a
two-part MultiPolygon there and a single Polygon at any other alpha. -/
def mpOracle : List P → ℚ → Geom := fun _ a =>
  if a = 30 then .multiPolygon [[(0, 0), (1, 0), (0, 1)], [(5, 5), (6, 5), (5, 6)]]
  else .polygon [(0, 0), (6, 5), (5, 6)]

/-- A trivial hull oracle for the unexercised alphashape branches. -/
def trivialHull : List P → Geom := fun _ => .geometryCollection []

/-- A trivial Delaunay oracle for the unexercised alphashape branches. -/
def trivialDelaunay : List P → ℚ → Geom := fun _ _ => .geometryCollection []

/-- Does the leading whitespace-split token of `s` avoid parsing to a
negative integer?  This is the hypothesis under which the amended C9
positivity statement holds: annotations such as `"-30"` violate it. -/
def tokNonNeg (s : PyStr) : Bool :=
  match (pySplit s).head? with
  | none => true
  | some tok =>
    match pyInt? tok with
    | none => true
    | some n => decide (0 ≤ n)

/-- `tokNonNeg` lifted to a whole annotation. -/
def annNonNeg : SpeedAnn → Bool
  | .absent => true
  | .str s => tokNonNeg s
  | .strs l => l.all tokNonNeg

/-- A one-edge graph annotated `"50"` (used by witnesses). -/
def exPosGraph : Graph :=
  { nodes := [(0, { x := 0, y := 0 }), (1, { x := 1, y := 0 })]
    edges := [{ u := 0, v := 1, length := 100, maxspeed := .str fifty }] }

/-- `exPosGraph` after the time-annotation pass:
`100 / (50 * 1000 / 60) = 3 / 25` minutes. -/
def exPosGraphTimed : Graph :=
  { exPosGraph with
    edges := [{ u := 0, v := 1, length := 100, maxspeed := .str fifty,
                time := 3 / 25 }] }

/-- A graph whose single segment carries an explicit `geometry`. -/
def exGeomGraph : Graph :=
  { nodes := [(0, { x := 0, y := 0 }), (1, { x := 1, y := 1 })]
    edges := [{ u := 0, v := 1, length := 100,
                geometry := some [(0, 0), (1, 1)] }] }

/-- An `alphashape` oracle that always returns one connected Polygon. -/
def polyOracle : List P → ℚ → Geom := fun _ _ =>
  .polygon [(0, 0), (1, 0), (0, 1)]

/-! ## Helper lemmas: splitting and stripping -/

theorem splitAux_ne_nil (cs : List Char) (acc : List Char) (h : acc ≠ []) :
    splitAux acc cs ≠ [] := by
  induction cs generalizing acc with
  | nil => simp [splitAux, List.isEmpty_iff, h]
  | cons c cs ih =>
    by_cases hc : pyIsSpace c
    · simp [splitAux, hc, List.isEmpty_iff, h]
    · simpa [splitAux, hc] using ih (c :: acc) (by simp)

theorem splitAux_eq_nil (s : List Char) :
    ∀ acc, splitAux acc s = [] → acc = [] ∧ ∀ c ∈ s, pyIsSpace c = true := by
  induction s with
  | nil =>
    intro acc h
    by_cases ha : acc = []
    · simp [ha]
    · simp [splitAux, List.isEmpty_iff, ha] at h
  | cons c cs ih =>
    intro acc h
    by_cases hc : pyIsSpace c
    · by_cases ha : acc = []
      · subst ha
        simp only [splitAux, hc, if_true, List.isEmpty_nil] at h
        exact ⟨rfl, by
          intro x hx
          rcases hx with _ | hx
          · exact hc
          · exact (ih [] h).2 x (by assumption)⟩
      · simp [splitAux, hc, List.isEmpty_iff, ha] at h
    · simp only [splitAux, hc, if_false] at h
      exact absurd h (splitAux_ne_nil cs (c :: acc) (by simp))

theorem pyStrip_eq_nil_iff (s : List Char) :
    pyStrip s = [] ↔ ∀ c ∈ s, pyIsSpace c = true := by
  unfold pyStrip
  rw [List.reverse_eq_nil_iff, List.dropWhile_eq_nil_iff]
  constructor
  · intro h c hc
    have hsplit := List.takeWhile_append_dropWhile (p := pyIsSpace) (l := s)
    rw [← hsplit] at hc
    rcases List.mem_append.mp hc with htk | hdr
    · exact List.mem_takeWhile_imp htk
    · exact h c (List.mem_reverse.mpr hdr)
  · intro h c hc
    exact h c ((List.dropWhile_sublist pyIsSpace).mem (List.mem_reverse.mp hc))

theorem pySplit_ne_nil_of_strip (s : List Char) (h : pyStrip s ≠ []) :
    pySplit s ≠ [] := by
  intro hs
  exact h ((pyStrip_eq_nil_iff s).mpr (splitAux_eq_nil s [] hs).2)

/-! ## Helper lemmas: the speed parser -/

theorem parseMaxSpeedToKmh_isSome (s : PyStr) :
    (parseMaxSpeedToKmh s).isSome = true := by
  unfold parseMaxSpeedToKmh
  split
  · rfl
  · rename_i hguard
    have h2 : pySplit s ≠ [] :=
      pySplit_ne_nil_of_strip s fun hh => hguard (Or.inr hh)
    cases hsp : (pySplit s).head? with
    | none => exact absurd (List.head?_eq_none_iff.mp hsp) h2
    | some tok => simp [hsp]

theorem parseMaxSpeedToKmh_val (s : PyStr) (q : ℚ)
    (h : parseMaxSpeedToKmh s = some q) :
    q = DEFAULT_SPEED ∨
      (q ≠ 0 ∧ ∃ tok n, (pySplit s).head? = some tok ∧ pyInt? tok = some n ∧
        q = (n : ℚ) * (if hasSub mphChars s then mphFactor else 1)) := by
  unfold parseMaxSpeedToKmh at h
  split at h
  · exact Or.inl (Option.some_inj.mp h).symm
  · cases hsp : (pySplit s).head? with
    | none => rw [hsp] at h; cases h
    | some tok =>
      rw [hsp] at h
      simp only at h
      cases hint : pyInt? tok with
      | none =>
        rw [hint] at h
        have hd : ¬ (DEFAULT_SPEED = 0) := by norm_num [DEFAULT_SPEED]
        simp only [hd, if_false, Option.some_inj] at h
        exact Or.inl h.symm
      | some n =>
        rw [hint] at h
        simp only [Option.some_inj] at h
        by_cases hz : (n : ℚ) * (if hasSub mphChars s then mphFactor else 1) = 0
        · rw [if_pos hz] at h
          exact Or.inl h.symm
        · rw [if_neg hz] at h
          exact Or.inr ⟨h ▸ hz, tok, n, rfl, hint, h.symm⟩

theorem parseMaxSpeedToKmh_pos (s : PyStr) (q : ℚ) (hn : tokNonNeg s = true)
    (h : parseMaxSpeedToKmh s = some q) : 0 < q := by
  rcases parseMaxSpeedToKmh_val s q h with rfl | ⟨hq0, tok, n, hsp, hint, rfl⟩
  · norm_num [DEFAULT_SPEED]
  · have hn0 : 0 ≤ n := by
      unfold tokNonNeg at hn
      rw [hsp] at hn
      simp only at hn
      rw [hint] at hn
      simpa using hn
    have hconv : 0 < (if hasSub mphChars s then mphFactor else 1 : ℚ) := by
      split <;> norm_num [mphFactor]
    have hnn : 0 ≤ (n : ℚ) * (if hasSub mphChars s then mphFactor else 1) :=
      mul_nonneg (by exact_mod_cast hn0) hconv.le
    exact lt_of_le_of_ne hnn (Ne.symm hq0)

theorem mapM_option_forall₂ {α β : Type} (f : α → Option β) :
    ∀ (l : List α) (res : List β), l.mapM f = some res →
      List.Forall₂ (fun a b => f a = some b) l res := by
  intro l
  induction l with
  | nil =>
    intro res h
    simp only [List.mapM_nil, pure, Option.some_inj] at h
    exact h ▸ List.Forall₂.nil
  | cons a t ih =>
    intro res h
    rw [List.mapM_cons] at h
    cases hfa : f a with
    | none => rw [hfa] at h; cases h
    | some b =>
      rw [hfa] at h
      cases hmt : t.mapM f with
      | none => rw [hmt] at h; cases h
      | some bs =>
        rw [hmt] at h
        simp only [Option.bind_some, Option.bind_eq_bind, pure,
          Option.some_inj] at h
        cases h
        exact List.Forall₂.cons hfa (ih bs hmt)

theorem mapM_option_isSome {α β : Type} (f : α → Option β) (l : List α)
    (h : ∀ a ∈ l, (f a).isSome = true) : (l.mapM f).isSome = true := by
  induction l with
  | nil => rfl
  | cons a t ih =>
    rw [List.mapM_cons]
    cases hfa : f a with
    | none => exact absurd (hfa ▸ h a (by simp)) (by simp)
    | some b =>
      cases hmt : t.mapM f with
      | none =>
        have := ih fun x hx => h x (by simp [hx])
        rw [hmt] at this
        cases this
      | some bs => simp

theorem forall₂_mapM_pos (l : List PyStr) (qs : List ℚ)
    (hrel : List.Forall₂ (fun a b => parseMaxSpeedToKmh a = some b) l qs)
    (hnn : ∀ a ∈ l, tokNonNeg a = true) : ∀ b ∈ qs, 0 < b := by
  induction hrel with
  | nil => intro b hb; cases hb
  | cons hab _ ih =>
    intro b hb
    rcases List.mem_cons.mp hb with rfl | hb'
    · exact parseMaxSpeedToKmh_pos _ _ (hnn _ (by simp)) hab
    · exact ih (fun x hx => hnn x (by simp [hx])) b hb'

/-- C1 (amended): for every successfully time-annotated network, each
segment's derived traversal time equals
`length / (resolvedSpeed * 1000 / 60)` for the speed actually resolved
from its annotation; the time is strictly positive whenever both the
length and the resolved speed are strictly positive.  (The claim's
unconditional positivity fails: a negative annotation such as `"-30"`
resolves to a negative speed and yields a negative time, see the
counterexample.) -/
theorem c1_traversal_time_formula (G G' : Graph)
    (h : updateGraphWithTimes G = some G') :
    List.Forall₂ (fun e e' =>
      ∃ speed, resolveSpeedAnn e.maxspeed = some speed ∧
        e'.time = e.length / (speed * 1000 / 60) ∧
        (0 < e.length → 0 < speed → 0 < e'.time)) G.edges G'.edges := by
  unfold updateGraphWithTimes at h
  cases hm : G.edges.mapM updateEdgeTime with
  | none => rw [hm] at h; cases h
  | some es =>
    rw [hm] at h
    simp only [Option.map_some', Option.some_inj] at h
    have hG' : G'.edges = es := by rw [← h]
    rw [hG']
    refine (mapM_option_forall₂ updateEdgeTime G.edges es hm).imp ?_
    intro e e' he
    unfold updateEdgeTime at he
    cases hr : resolveSpeedAnn e.maxspeed with
    | none => rw [hr] at he; cases he
    | some speed =>
      rw [hr] at he
      simp only [Option.some_bind] at he
      split at he
      · cases he
      · rename_i hmpm
        have he' : e' = { e with time := e.length / (speed * 1000 / 60) } :=
          (Option.some_inj.mp he).symm
        subst he'
        refine ⟨speed, rfl, rfl, ?_⟩
        intro hl hs
        exact div_pos hl (by positivity)

/-- C1 counterexample: in a network whose only segment has length 100 and
annotation `"-30"`, the time-annotation pass succeeds and produces the
traversal time `-1/5`, which is not strictly positive although the
length is. -/
theorem c1_negative_time_cex :
    (updateGraphWithTimes exNegGraph).map (fun g => g.edges.map Edge.time)
        = some [(-1 : ℚ) / 5]
      ∧ exNegGraph.edges.map Edge.length = [100]
      ∧ ¬ (0 < ((-1 : ℚ) / 5)) := by
  refine ⟨?_, rfl, by norm_num⟩
  simp +decide [updateGraphWithTimes, updateEdgeTime, List.mapM.loop,
    resolveSpeedAnn, parseMaxSpeedToKmh, pySplit, splitAux, pyStrip, pyLower,
    pyIsSpace, noneChars, pyInt?, digitsVal?, digitsToNat, hasSub, startsWithL,
    mphChars, mphFactor, DEFAULT_SPEED, exNegGraph, negThirty]
  norm_num

/-- C1 witness: the amended theorem applied to the concrete `"50"`-
annotated network. -/
theorem c1_traversal_time_formula_witness :
    List.Forall₂ (fun e e' =>
      ∃ speed, resolveSpeedAnn e.maxspeed = some speed ∧
        e'.time = e.length / (speed * 1000 / 60) ∧
        (0 < e.length → 0 < speed → 0 < e'.time))
      exPosGraph.edges exPosGraphTimed.edges :=
  c1_traversal_time_formula exPosGraph exPosGraphTimed (by
    simp +decide [updateGraphWithTimes, updateEdgeTime, List.mapM.loop,
      resolveSpeedAnn, parseMaxSpeedToKmh, pySplit, splitAux, pyStrip, pyLower,
      pyIsSpace, noneChars, pyInt?, digitsVal?, digitsToNat, hasSub, startsWithL,
      mphChars, mphFactor, DEFAULT_SPEED, exPosGraph, exPosGraphTimed, fifty]
    norm_num)

/-- C9 (amended): speed resolution never raises (it is total on every
annotation shape), and its result is strictly positive provided no
annotation string's leading token parses to a negative integer.  (The
claim's unconditional positivity fails: `"-30"` resolves to `-30`.) -/
theorem c9_resolve_total_and_pos (ann : SpeedAnn) :
    (resolveSpeedAnn ann).isSome = true ∧
      (annNonNeg ann = true → ∀ q, resolveSpeedAnn ann = some q → 0 < q) := by
  constructor
  · cases ann with
    | absent => rfl
    | str s =>
      simp only [resolveSpeedAnn]
      split
      · rfl
      · exact parseMaxSpeedToKmh_isSome s
    | strs l =>
      simp only [resolveSpeedAnn]
      split
      · rfl
      · rw [Option.isSome_map']
        exact mapM_option_isSome _ l fun a _ => parseMaxSpeedToKmh_isSome a
  · intro hnn q hq
    cases ann with
    | absent =>
      have : q = DEFAULT_SPEED := by
        simpa [resolveSpeedAnn] using hq.symm
      subst this
      norm_num [DEFAULT_SPEED]
    | str s =>
      simp only [resolveSpeedAnn] at hq
      split at hq
      · have : q = DEFAULT_SPEED := Option.some_inj.mp hq.symm
        subst this
        norm_num [DEFAULT_SPEED]
      · exact parseMaxSpeedToKmh_pos s q (by simpa [annNonNeg] using hnn) hq
    | strs l =>
      simp only [resolveSpeedAnn] at hq
      split at hq
      · have : q = DEFAULT_SPEED := Option.some_inj.mp hq.symm
        subst this
        norm_num [DEFAULT_SPEED]
      · rename_i hl
        cases hm : l.mapM parseMaxSpeedToKmh with
        | none => rw [hm] at hq; cases hq
        | some qs =>
          rw [hm] at hq
          simp only [Option.map_some', Option.some_inj] at hq
          have hrel := mapM_option_forall₂ parseMaxSpeedToKmh l qs hm
          have hpos : ∀ b ∈ qs, 0 < b :=
            forall₂_mapM_pos l qs hrel (by
              intro a ha
              have := (List.all_eq_true.mp (by simpa [annNonNeg] using hnn))
              exact this a ha)
          have hqs : qs ≠ [] := by
            intro h0
            subst h0
            exact hl (List.isEmpty_iff.mpr (List.length_eq_zero.mp
              (hrel.length_eq.trans rfl)))
          have hsum : 0 < qs.sum := List.sum_pos qs hpos hqs
          have hlen : 0 < (l.length : ℚ) := by
            have : l ≠ [] := fun h0 => hl (List.isEmpty_iff.mpr h0)
            have := List.length_pos.mpr this
            exact_mod_cast this
          rw [← hq]
          exact div_pos hsum hlen

/-- C9 counterexample: the annotation `"-30"` resolves (without raising)
to the non-positive speed `-30`. -/
theorem c9_negative_speed_cex :
    resolveSpeedAnn (.str negThirty) = some (-30) ∧ ¬ (0 < (-30 : ℚ)) := by
  refine ⟨?_, by norm_num⟩
  simp +decide [resolveSpeedAnn, parseMaxSpeedToKmh, pySplit, splitAux, pyStrip,
    pyLower, pyIsSpace, noneChars, pyInt?, digitsVal?, digitsToNat, hasSub,
    startsWithL, mphChars, mphFactor, DEFAULT_SPEED, negThirty]

/-- C9 witness: the amended theorem applied to the annotation `"50"`. -/
theorem c9_resolve_total_and_pos_witness : (0 : ℚ) < 50 :=
  (c9_resolve_total_and_pos (.str fifty)).2 (by decide) 50 (by
    simp +decide [resolveSpeedAnn, parseMaxSpeedToKmh, pySplit, splitAux,
      pyStrip, pyLower, pyIsSpace, noneChars, pyInt?, digitsVal?, digitsToNat,
      hasSub, startsWithL, mphChars, mphFactor, DEFAULT_SPEED, fifty])

/-! ## Helper lemmas: digit characters and tokenisation -/

theorem char_digit_bounds (c : Char) (h : c.isDigit = true) :
    48 ≤ c.toNat ∧ c.toNat ≤ 57 := by
  simpa [Char.isDigit] using h

theorem digit_toLower (c : Char) (h : c.toNat ≤ 57) : c.toLower = c := by
  unfold Char.toLower
  rw [if_neg]
  omega

theorem digit_not_space (c : Char) (h : 48 ≤ c.toNat) : pyIsSpace c = false := by
  simp only [pyIsSpace, Bool.or_eq_false_iff, beq_eq_false_iff_ne, ne_eq]
  refine ⟨⟨⟨⟨⟨?_, ?_⟩, ?_⟩, ?_⟩, ?_⟩, ?_⟩ <;> (rintro rfl; revert h; decide)

theorem dropWhile_eq_self_of_all {p : Char → Bool} (l : List Char)
    (h : ∀ c ∈ l, p c = false) : l.dropWhile p = l := by
  cases l with
  | nil => rfl
  | cons a t => simp [List.dropWhile_cons, h a (by simp)]

theorem pyStrip_eq_self (l : List Char) (h : ∀ c ∈ l, pyIsSpace c = false) :
    pyStrip l = l := by
  unfold pyStrip
  rw [dropWhile_eq_self_of_all l h,
    dropWhile_eq_self_of_all l.reverse fun c hc => h c (List.mem_reverse.mp hc),
    List.reverse_reverse]

theorem splitAux_token (tok : List Char) (rest : List Char)
    (htok : ∀ c ∈ tok, pyIsSpace c = false) :
    ∀ acc, (acc = [] → tok ≠ []) →
      splitAux acc (tok ++ ' ' :: rest) = (acc.reverse ++ tok) :: splitAux [] rest := by
  induction tok with
  | nil =>
    intro acc hacc
    have hne : acc ≠ [] := fun h0 => hacc h0 rfl
    simp only [List.nil_append, splitAux]
    rw [if_pos (by decide), if_neg (by simpa [List.isEmpty_iff] using hne)]
    simp
  | cons c tok' ih =>
    intro acc _
    have hc : pyIsSpace c = false := htok c (by simp)
    simp only [List.cons_append, splitAux, hc, if_false, Bool.false_eq_true]
    rw [List.append_eq, ih (fun x hx => htok x (by simp [hx])) (c :: acc) (by simp)]
    simp

theorem pySplit_token (tok rest : List Char) (htok : ∀ c ∈ tok, pyIsSpace c = false)
    (hne : tok ≠ []) :
    pySplit (tok ++ ' ' :: rest) = tok :: pySplit rest := by
  unfold pySplit
  rw [splitAux_token tok rest htok [] fun _ => hne]
  simp

theorem pyInt_digits (tok : List Char) (hne : tok ≠ [])
    (hdig : ∀ c ∈ tok, c.isDigit = true) :
    pyInt? tok = some ((digitsToNat tok : ℕ) : ℤ) := by
  have hnospace : ∀ c ∈ tok, pyIsSpace c = false := fun c hc =>
    digit_not_space c (char_digit_bounds c (hdig c hc)).1
  obtain ⟨c, tok', rfl⟩ : ∃ c tok', tok = c :: tok' := by
    cases tok with
    | nil => exact absurd rfl hne
    | cons c t => exact ⟨c, t, rfl⟩
  have hrange := char_digit_bounds c (hdig c (by simp))
  unfold pyInt?
  rw [pyStrip_eq_self _ hnospace]
  have hplus : ¬ (c = '+') := by rintro rfl; revert hrange; decide
  have hminus : ¬ (c = '-') := by rintro rfl; revert hrange; decide
  simp only [hplus, hminus, if_false]
  have hcond : (!(c :: tok').isEmpty && (c :: tok').all Char.isDigit) = true := by
    simp only [List.isEmpty_cons, Bool.not_false, Bool.true_and, List.all_eq_true]
    exact hdig
  rw [digitsVal?, if_pos hcond]
  simp

theorem splitAux_word (tok : List Char)
    (htok : ∀ c ∈ tok, pyIsSpace c = false) :
    ∀ acc, (acc = [] → tok ≠ []) → splitAux acc tok = [acc.reverse ++ tok] := by
  induction tok with
  | nil =>
    intro acc hacc
    have hne : acc ≠ [] := fun h0 => hacc h0 rfl
    simp only [splitAux]
    rw [if_neg (by simpa [List.isEmpty_iff] using hne)]
    simp
  | cons c tok' ih =>
    intro acc _
    have hc : pyIsSpace c = false := htok c (by simp)
    simp only [splitAux, hc, if_false, Bool.false_eq_true]
    rw [ih (fun x hx => htok x (by simp [hx])) (c :: acc) (by simp)]
    simp

theorem pySplit_word (tok : List Char) (htok : ∀ c ∈ tok, pyIsSpace c = false)
    (hne : tok ≠ []) : pySplit tok = [tok] := by
  unfold pySplit
  rw [splitAux_word tok htok [] fun _ => hne]
  rfl

theorem pyLower_ne_none (c : Char) (rest : List Char)
    (hdig : c.isDigit = true) :
    ¬ (pyLower (c :: rest) = noneChars) := by
  intro heq
  obtain ⟨h48, h57⟩ := char_digit_bounds c hdig
  have hhead : (pyLower (c :: rest)).head? = some c.toLower := by
    simp [pyLower]
  rw [heq] at hhead
  have : c.toLower = 'n' := by
    simpa [noneChars] using hhead.symm
  rw [digit_toLower c h57] at this
  subst this
  revert h57
  decide

/-- Core of the amended C4: a single annotation consisting of a nonempty
digit token, either bare (`"<digits>"`) or followed by a space and an
arbitrary remainder (`"<digits> <unit...>"`), resolves to the number
times 1.60934 exactly when the *whole string* contains `"mph"` as a
substring (not when its unit token equals `"mph"`), to the bare number
when that substring is absent, and to the default speed when the number
is zero. -/
theorem parse_numeric_form (tok rest : PyStr)
    (htok : tok ≠ []) (hdig : ∀ c ∈ tok, c.isDigit = true)
    (hshape : rest = [] ∨ ∃ unitRest, rest = ' ' :: unitRest) :
    parseMaxSpeedToKmh (tok ++ rest) =
      some (if digitsToNat tok = 0 then DEFAULT_SPEED
        else (digitsToNat tok : ℚ) *
          (if hasSub mphChars (tok ++ rest) then mphFactor else 1)) := by
  obtain ⟨c, tok', rfl⟩ : ∃ c tok', tok = c :: tok' := by
    cases tok with
    | nil => exact absurd rfl htok
    | cons c t => exact ⟨c, t, rfl⟩
  have hnospace : ∀ x ∈ c :: tok', pyIsSpace x = false := fun x hx =>
    digit_not_space x (char_digit_bounds x (hdig x hx)).1
  have hguard : ¬ (pyLower ((c :: tok') ++ rest) = noneChars ∨
      pyStrip ((c :: tok') ++ rest) = []) := by
    rintro (h1 | h2)
    · rw [List.cons_append] at h1
      exact pyLower_ne_none c (tok' ++ rest) (hdig c (by simp)) h1
    · have := (pyStrip_eq_nil_iff _).mp h2 c (by simp)
      rw [hnospace c (by simp)] at this
      cases this
  have hhead : (pySplit ((c :: tok') ++ rest)).head? = some (c :: tok') := by
    rcases hshape with rfl | ⟨unitRest, rfl⟩
    · rw [List.append_nil, pySplit_word (c :: tok') hnospace (by simp)]
      rfl
    · rw [pySplit_token (c :: tok') unitRest hnospace (by simp)]
      rfl
  unfold parseMaxSpeedToKmh
  rw [if_neg hguard, hhead]
  simp only
  rw [pyInt_digits (c :: tok') (by simp) hdig]
  have hconv : 0 < (if hasSub mphChars ((c :: tok') ++ rest)
      then mphFactor else (1 : ℚ)) := by
    split <;> norm_num [mphFactor]
  by_cases hz : digitsToNat (c :: tok') = 0
  · rw [hz]
    norm_num
  · have hspeed : ((digitsToNat (c :: tok') : ℤ) : ℚ) *
        (if hasSub mphChars ((c :: tok') ++ rest) then mphFactor else 1)
        ≠ 0 := by
      refine mul_ne_zero ?_ hconv.ne'
      exact_mod_cast Nat.cast_ne_zero.mpr hz
    simp only [Int.cast_natCast] at hspeed ⊢
    rw [if_neg hspeed, if_neg hz]

/-- C4 (amended): for a single annotation that is a nonempty digit token
optionally followed by a space and a unit remainder — covering both
`"<number>"` and `"<number> [unit]"` — the resolved speed is the number
multiplied by 1.60934 exactly when `"mph"` occurs *anywhere in the
string* (the code tests `"mph" in max_speed`, not the unit token), the
bare number when that substring is absent, and the default speed when
the number is zero; and a list annotation resolves to the arithmetic
mean of the element-wise resolutions.  (The claim's per-unit-token
reading fails on `"30 kmph"`, whose unit token is not `"mph"`: see the
counterexample.) -/
theorem c4_mph_substring_and_mean :
    (∀ tok rest : PyStr, tok ≠ [] → (∀ c ∈ tok, c.isDigit = true) →
      (rest = [] ∨ ∃ unitRest, rest = ' ' :: unitRest) →
      parseMaxSpeedToKmh (tok ++ rest) =
        some (if digitsToNat tok = 0 then DEFAULT_SPEED
          else (digitsToNat tok : ℚ) *
            (if hasSub mphChars (tok ++ rest) then mphFactor else 1)))
    ∧ (∀ (l : List PyStr) (qs : List ℚ), l ≠ [] →
        l.mapM parseMaxSpeedToKmh = some qs →
        resolveSpeedAnn (.strs l) = some (qs.sum / (l.length : ℚ))) := by
  constructor
  · exact parse_numeric_form
  · intro l qs hl hm
    simp only [resolveSpeedAnn]
    rw [if_neg (by simpa [List.isEmpty_iff] using hl), hm]
    rfl

/-- C4 counterexample: the annotation `"30 kmph"` has unit token
`"kmph"`, not `"mph"`, so the claim requires the resolved speed 30; the
code's substring test makes it `30 * 1.60934 = 48.2802` instead. -/
theorem c4_unit_token_cex :
    parseMaxSpeedToKmh thirtyKmph = some (241401 / 5000) ∧
      ((241401 : ℚ) / 5000) ≠ 30 := by
  constructor
  · simp +decide [parseMaxSpeedToKmh, pySplit, splitAux, pyStrip, pyLower,
      pyIsSpace, noneChars, pyInt?, digitsVal?, digitsToNat, hasSub, startsWithL,
      mphChars, mphFactor, DEFAULT_SPEED, thirtyKmph]
    norm_num
  · norm_num

/-- C4 witness: the amended theorem applied to the spaced annotation
`"30 kmph"`, to the bare (unit-less) annotation `"50"`, and to the
one-element list `["50"]`. -/
theorem c4_mph_substring_and_mean_witness :
    parseMaxSpeedToKmh (['3', '0'] ++ ' ' :: ['k', 'm', 'p', 'h']) =
        some (if digitsToNat ['3', '0'] = 0 then DEFAULT_SPEED
          else (digitsToNat ['3', '0'] : ℚ) *
            (if hasSub mphChars (['3', '0'] ++ ' ' :: ['k', 'm', 'p', 'h'])
              then mphFactor else 1))
      ∧ parseMaxSpeedToKmh (['5', '0'] ++ []) =
          some (if digitsToNat ['5', '0'] = 0 then DEFAULT_SPEED
            else (digitsToNat ['5', '0'] : ℚ) *
              (if hasSub mphChars (['5', '0'] ++ []) then mphFactor else 1))
      ∧ resolveSpeedAnn (.strs [fifty]) =
          some (([(50 : ℚ)]).sum / (([fifty] : List PyStr).length : ℚ)) :=
  ⟨c4_mph_substring_and_mean.1 ['3', '0'] (' ' :: ['k', 'm', 'p', 'h'])
      (by decide) (by decide) (Or.inr ⟨['k', 'm', 'p', 'h'], rfl⟩),
    c4_mph_substring_and_mean.1 ['5', '0'] [] (by decide) (by decide)
      (Or.inl rfl),
    c4_mph_substring_and_mean.2 [fifty] [(50 : ℚ)] (by simp) (by
      simp +decide [List.mapM.loop, parseMaxSpeedToKmh, pySplit, splitAux,
        pyStrip, pyLower, pyIsSpace, noneChars, pyInt?, digitsVal?, digitsToNat,
        hasSub, startsWithL, mphChars, mphFactor, DEFAULT_SPEED, fifty])⟩

/-! ## Helper lemmas: paths, distances, and the ego graph -/

theorem spGo_extends (G : Graph) :
    ∀ (fuel : ℕ) (cur : ℕ) (rev : List ℕ) (p : List ℕ),
      p ∈ spGo G fuel cur rev → ∃ ext, p = ext ++ rev := by
  intro fuel
  induction fuel with
  | zero =>
    intro cur rev p hp
    simp only [spGo, List.mem_singleton] at hp
    exact ⟨[], by simp [hp]⟩
  | succ f ih =>
    intro cur rev p hp
    simp only [spGo, List.mem_cons] at hp
    rcases hp with rfl | hp
    · exact ⟨[], by simp⟩
    · rw [List.mem_flatMap] at hp
      obtain ⟨v, _, hv⟩ := hp
      obtain ⟨ext, rfl⟩ := ih v (v :: rev) p hv
      exact ⟨ext ++ [v], by simp⟩

theorem spGo_self (G : Graph) (fuel cur : ℕ) (rev : List ℕ) :
    rev ∈ spGo G fuel cur rev := by
  cases fuel with
  | zero => simp [spGo]
  | succ f => simp [spGo]

theorem minEdgeTime_pos (G : Graph) (hpos : ∀ e ∈ G.edges, 0 < e.time)
    (u v : ℕ) (w : ℚ) (h : minEdgeTime G u v = some w) : 0 < w := by
  have hmem := List.min?_mem (fun a b : ℚ => min_choice a b) h
  rw [List.mem_map] at hmem
  obtain ⟨e, he, rfl⟩ := hmem
  exact hpos e (List.mem_filter.mp he).1

theorem revPathCost_nonneg (G : Graph) (hpos : ∀ e ∈ G.edges, 0 < e.time) :
    ∀ (p : List ℕ) (c : ℚ), revPathCost G p = some c → 0 ≤ c := by
  intro p
  induction p with
  | nil => intro c h; simp only [revPathCost, Option.some_inj] at h; exact le_of_eq h
  | cons v t ih =>
    intro c h
    cases t with
    | nil => simp only [revPathCost, Option.some_inj] at h; exact le_of_eq h
    | cons u rest =>
      simp only [revPathCost] at h
      cases hw : minEdgeTime G u v with
      | none => rw [hw] at h; cases h
      | some w =>
        rw [hw] at h
        cases hc : revPathCost G (u :: rest) with
        | none => rw [hc] at h; cases h
        | some c' =>
          rw [hc] at h
          simp only [Option.some_bind, Option.map_some', Option.some_inj] at h
          have h1 := minEdgeTime_pos G hpos u v w hw
          have h2 := ih c' hc
          rw [← h]
          linarith

theorem revPathCost_pos (G : Graph) (hpos : ∀ e ∈ G.edges, 0 < e.time)
    (v u : ℕ) (rest : List ℕ) (c : ℚ)
    (h : revPathCost G (v :: u :: rest) = some c) : 0 < c := by
  simp only [revPathCost] at h
  cases hw : minEdgeTime G u v with
  | none => rw [hw] at h; cases h
  | some w =>
    rw [hw] at h
    cases hc : revPathCost G (u :: rest) with
    | none => rw [hc] at h; cases h
    | some c' =>
      rw [hc] at h
      simp only [Option.some_bind, Option.map_some', Option.some_inj] at h
      have h1 := minEdgeTime_pos G hpos u v w hw
      have h2 := revPathCost_nonneg G hpos (u :: rest) c' hc
      rw [← h]
      linarith

theorem distOpt_self_le_zero (G : Graph) (s : ℕ) :
    ∃ d, distOpt G s s = some d ∧ d ≤ 0 := by
  have hmem : (0 : ℚ) ∈ ((simplePathsRev G s).filter
      fun p => p.head? == some s).filterMap (revPathCost G) := by
    rw [List.mem_filterMap]
    refine ⟨[s], List.mem_filter.mpr ⟨spGo_self G G.nodes.length s [s], by simp⟩, rfl⟩
  have hne := List.isSome_min?_of_mem hmem
  cases hd : (((simplePathsRev G s).filter
      fun p => p.head? == some s).filterMap (revPathCost G)).min? with
  | none => rw [hd] at hne; cases hne
  | some d =>
    refine ⟨d, hd, ?_⟩
    have := (List.le_min?_iff (fun a b c : ℚ => le_min_iff) hd).mp (le_refl d)
    exact this 0 hmem

theorem distOpt_pos_of_ne (G : Graph) (s v : ℕ)
    (hpos : ∀ e ∈ G.edges, 0 < e.time) (hne : v ≠ s) (d : ℚ)
    (h : distOpt G s v = some d) : 0 < d := by
  have hmem := List.min?_mem (fun a b : ℚ => min_choice a b) h
  rw [List.mem_filterMap] at hmem
  obtain ⟨p, hp, hcost⟩ := hmem
  have hp' := List.mem_filter.mp hp
  have hhead : p.head? = some v := by
    have := hp'.2
    simpa using this
  obtain ⟨ext, rfl⟩ := spGo_extends G G.nodes.length s [s] p hp'.1
  cases ext with
  | nil =>
    rw [List.nil_append] at hhead
    simp only [List.head?_cons, Option.some_inj] at hhead
    exact absurd hhead.symm hne
  | cons a ext' =>
    have hshape : ∃ y rest, a :: (ext' ++ [s]) = a :: y :: rest := by
      cases ext' with
      | nil => exact ⟨s, [], rfl⟩
      | cons b t => exact ⟨b, t ++ [s], by simp⟩
    obtain ⟨y, rest, heq⟩ := hshape
    rw [List.cons_append, heq] at hcost
    exact revPathCost_pos G hpos a y rest d hcost

theorem egoNodes_mem_iff (G : Graph) (s : ℕ) (b : ℚ) (v : ℕ) :
    v ∈ egoNodes G s b ↔
      v ∈ G.ids ∧ ∃ d, distOpt G s v = some d ∧ d ≤ b := by
  unfold egoNodes
  rw [List.mem_filter]
  constructor
  · rintro ⟨h1, h2⟩
    refine ⟨h1, ?_⟩
    cases hd : distOpt G s v with
    | none => rw [hd] at h2; cases h2
    | some d =>
      rw [hd] at h2
      exact ⟨d, rfl, of_decide_eq_true h2⟩
  · rintro ⟨h1, d, hd, hdb⟩
    exact ⟨h1, by rw [hd]; exact decide_eq_true hdb⟩

theorem filter_eq_singleton (p : ℕ → Bool) :
    ∀ (l : List ℕ) (s : ℕ), l.Nodup → s ∈ l →
      (∀ v ∈ l, (p v = true ↔ v = s)) → l.filter p = [s] := by
  intro l
  induction l with
  | nil => intro s _ hs _; cases hs
  | cons a t ih =>
    intro s hnd hs hiff
    have hand := List.nodup_cons.mp hnd
    rcases List.mem_cons.mp hs with rfl | hst
    · have hpa : p s = true := (hiff s (by simp)).mpr rfl
      have hft : t.filter p = [] := by
        rw [List.filter_eq_nil_iff]
        intro v hv
        intro hpv
        have := (hiff v (by simp [hv])).mp hpv
        exact hand.1 (this ▸ hv)
      simp [List.filter_cons, hpa, hft]
    · have hpa : p a = false := by
        cases hpa : p a with
        | false => rfl
        | true =>
          have := (hiff a (by simp)).mp hpa
          exact absurd (this ▸ hst) hand.1
      simp only [List.filter_cons, hpa, Bool.false_eq_true, if_false]
      exact ih s hand.2 hst fun v hv => hiff v (by simp [hv])

/-- C2 (amended): the reachability computation is the node-induced
subgraph on the source plus exactly the nodes whose shortest
time-distance is at most the budget; for budget 0 (under positive edge
times and distinct node identifiers) the node set is exactly the source,
and the segment set is exactly the *self-loops at the source* — so "no
segments" holds only when the source carries no self-loop (the
counterexample exhibits a self-loop that survives). -/
theorem c2_ego_ball (G : Graph) (s : ℕ) (b : ℚ) (hb : 0 ≤ b)
    (hs : s ∈ G.ids) :
    s ∈ egoNodes G s b ∧
    (∀ v, v ∈ egoNodes G s b ↔
      v ∈ G.ids ∧ ∃ d, distOpt G s v = some d ∧ d ≤ b) ∧
    (b = 0 → (∀ e ∈ G.edges, 0 < e.time) → G.ids.Nodup →
      egoNodes G s 0 = [s] ∧
      (egoGraph G s 0).edges = G.edges.filter fun e => e.u == s && e.v == s) := by
  refine ⟨?_, fun v => egoNodes_mem_iff G s b v, ?_⟩
  · obtain ⟨d, hd, hd0⟩ := distOpt_self_le_zero G s
    exact (egoNodes_mem_iff G s b s).mpr ⟨hs, d, hd, le_trans hd0 hb⟩
  · intro _ hpos hnodup
    have hsingle : egoNodes G s 0 = [s] := by
      unfold egoNodes
      refine filter_eq_singleton _ G.ids s hnodup hs ?_
      intro v hv
      constructor
      · intro hpv
        cases hd : distOpt G s v with
        | none => rw [hd] at hpv; cases hpv
        | some d =>
          rw [hd] at hpv
          have hdle : d ≤ 0 := of_decide_eq_true hpv
          by_contra hvs
          have := distOpt_pos_of_ne G s v hpos hvs d hd
          linarith
      · intro hveq
        rw [hveq]
        obtain ⟨d, hd, hd0⟩ := distOpt_self_le_zero G s
        rw [hd]
        exact decide_eq_true hd0
    refine ⟨hsingle, ?_⟩
    unfold egoGraph subgraphInduced
    rw [hsingle]
    simp only
    refine List.filter_congr ?_
    intro e _
    simp only [List.contains_cons, List.contains_nil, Bool.or_false]

/-- C2 counterexample: with a self-loop at the source node, the
budget-0 reachable subgraph contains exactly the source node yet still
carries a segment (the loop), contradicting the claim's "no segments". -/
theorem c2_budget_zero_selfloop_cex :
    (egoGraph exLoopGraph 0 0).nodes.map Prod.fst = [0] ∧
    (egoGraph exLoopGraph 0 0).edges ≠ [] := by
  refine ⟨rfl, ?_⟩
  intro h
  have hlen : (egoGraph exLoopGraph 0 0).edges.length = 1 := rfl
  rw [h] at hlen
  cases hlen

/-- C2 witness: the amended theorem applied to the concrete graph
`exRouteGraph` at budget 0. -/
theorem c2_ego_ball_witness :
    egoNodes exRouteGraph 0 0 = [0] ∧
    (egoGraph exRouteGraph 0 0).edges =
      exRouteGraph.edges.filter fun e => e.u == 0 && e.v == 0 :=
  (c2_ego_ball exRouteGraph 0 0 le_rfl (by decide)).2.2 rfl
    (by
      intro e he
      simp only [exRouteGraph, List.mem_singleton] at he
      rw [he]
      norm_num)
    (by decide)

/-- C5 (confirmed): enlarging the time budget never shrinks the
reachable node set — both on node identifiers and on the node list of
the induced subgraph. -/
theorem c5_budget_monotone (G : Graph) (s : ℕ) (b1 b2 : ℚ) (h : b1 ≤ b2) :
    (∀ v, v ∈ egoNodes G s b1 → v ∈ egoNodes G s b2) ∧
    (∀ nd, nd ∈ (egoGraph G s b1).nodes → nd ∈ (egoGraph G s b2).nodes) := by
  have hmono : ∀ v, v ∈ egoNodes G s b1 → v ∈ egoNodes G s b2 := by
    intro v hv
    rw [egoNodes_mem_iff] at hv ⊢
    obtain ⟨h1, d, hd, hdb⟩ := hv
    exact ⟨h1, d, hd, le_trans hdb h⟩
  refine ⟨hmono, ?_⟩
  intro nd hnd
  unfold egoGraph subgraphInduced at hnd ⊢
  rw [List.mem_filter] at hnd ⊢
  refine ⟨hnd.1, ?_⟩
  have h2 := hnd.2
  exact List.elem_eq_true_of_mem (hmono _ (List.mem_of_elem_eq_true h2))

/-- C5 witness: monotonicity applied to `exRouteGraph` with budgets
0 ≤ 2. -/
theorem c5_budget_monotone_witness : 0 ∈ egoNodes exRouteGraph 0 2 :=
  (c5_budget_monotone exRouteGraph 0 0 2 (by norm_num)).1 0 (by
    rw [show egoNodes exRouteGraph 0 0 = [0] by
      simp +decide [egoNodes, Graph.ids, distOpt, simplePathsRev, spGo, outNbrs,
        minEdgeTime, revPathCost, exRouteGraph]]
    simp)

/-! ## Helper lemmas: route extraction -/

theorem mapM_none_of_mem {α β : Type} (f : α → Option β) :
    ∀ (l : List α) (a : α), a ∈ l → f a = none → l.mapM f = none := by
  intro l
  induction l with
  | nil => intro a ha; cases ha
  | cons x t ih =>
    intro a ha hfa
    rw [List.mapM_cons]
    rcases List.mem_cons.mp ha with rfl | hat
    · rw [hfa]; rfl
    · cases hx : f x with
      | none => rfl
      | some b => rw [ih a hat hfa]; rfl

/-- C6 (amended): `generate_shortest_paths` has no per-vertex error
handling — if the by-length shortest path to any single boundary vertex
does not exist, the underlying `nx.shortest_path` raises and the whole
batch fails with no partial results; only when every vertex has a route
does the call return, with exactly one polyline per boundary vertex.
(The claim's `NoRouteFound`-and-continue behaviour does not exist in the
code: see the counterexample.) -/
theorem c6_no_route_aborts (sub : Graph) (center : ℕ) (ns : List ℕ) :
    (∀ n ∈ ns, shortestPathByLength sub center n = none →
      generateShortestPaths sub center ns = none) ∧
    ((∀ m ∈ ns, ((shortestPathByLength sub center m).bind
        fun route => route.mapM (nodeYX sub)).isSome = true) →
      ∃ rs, generateShortestPaths sub center ns = some rs ∧
        rs.length = ns.length) := by
  constructor
  · intro n hn hfail
    exact mapM_none_of_mem _ ns n hn (by rw [hfail]; rfl)
  · intro h
    have hs := mapM_option_isSome
      (fun n => (shortestPathByLength sub center n).bind
        fun route => route.mapM (nodeYX sub)) ns h
    rw [Option.isSome_iff_exists] at hs
    obtain ⟨rs, hrs⟩ := hs
    refine ⟨rs, hrs, ?_⟩
    exact (mapM_option_forall₂ _ ns rs hrs).length_eq.symm

/-- C6 counterexample: in `exRouteGraph` node 2 is unreachable from node
0; the batch over boundary vertices `[1, 2]` fails outright (no partial
result), although the batch over `[1]` alone succeeds. -/
theorem c6_abort_cex :
    generateShortestPaths exRouteGraph 0 [1, 2] = none ∧
      (generateShortestPaths exRouteGraph 0 [1]).isSome = true :=
  ⟨rfl, rfl⟩

/-- C6 witness: the amended theorem applied to `exRouteGraph` with the
unreachable boundary vertex listed first. -/
theorem c6_no_route_aborts_witness :
    generateShortestPaths exRouteGraph 0 [2, 1] = none :=
  (c6_no_route_aborts exRouteGraph 0 [2, 1]).1 2 (by simp) rfl

/-- C7 (amended): for an input of fewer than 4 points with at most 2
distinct positions, the boundary extraction performs no
insufficient-points check: it returns the alphashape convex-hull
fallback — an empty collection, a single point, or a line segment —
without reporting any error, and the MultiPolygon retry never fires.
(The claim's `InsufficientPoints` report does not exist in the code:
see the counterexample, where two distinct points yield a LineString.) -/
theorem c7_small_input_no_error (hullRest : List P → Geom)
    (delaunay : List P → ℚ → Geom) (points : List P)
    (hlen : points.length < 4) (hdup : points.dedup.length ≤ 2) :
    isochronePolys (alphashapeModel hullRest delaunay) points =
        alphashapeModel hullRest delaunay points 30 ∧
      ((isochronePolys (alphashapeModel hullRest delaunay) points).geomType =
          GeomType.geometryCollection ∨
        (isochronePolys (alphashapeModel hullRest delaunay) points).geomType =
          GeomType.point ∨
        (isochronePolys (alphashapeModel hullRest delaunay) points).geomType =
          GeomType.lineString) := by
  have hcases : (alphashapeModel hullRest delaunay points 30).geomType =
      GeomType.geometryCollection ∨
      (alphashapeModel hullRest delaunay points 30).geomType = GeomType.point ∨
      (alphashapeModel hullRest delaunay points 30).geomType =
        GeomType.lineString := by
    unfold alphashapeModel
    rw [if_pos hlen]
    cases hdc : points.dedup with
    | nil => simp [Geom.geomType]
    | cons p tl =>
      cases tl with
      | nil => simp [Geom.geomType]
      | cons q tl2 =>
        cases tl2 with
        | nil => simp [Geom.geomType]
        | cons r tl3 =>
          exfalso
          rw [hdc] at hdup
          simp at hdup
  have hnotmp : ((alphashapeModel hullRest delaunay points 30).geomType ==
      GeomType.multiPolygon) = false := by
    rcases hcases with h | h | h <;> rw [h] <;> rfl
  have hres : isochronePolys (alphashapeModel hullRest delaunay) points =
      alphashapeModel hullRest delaunay points 30 := by
    simp [isochronePolys, hnotmp]
  exact ⟨hres, hres ▸ hcases⟩

/-- C7 counterexample: two distinct points produce a LineString geometry
(the degenerate convex hull) — a returned geometry, not an error. -/
theorem c7_two_points_cex :
    isochronePolys (alphashapeModel trivialHull trivialDelaunay)
      [(0, 0), (1, 1)] = Geom.lineString [(0, 0), (1, 1)] := rfl

/-- C7 witness: the amended theorem applied to the two-point input. -/
theorem c7_small_input_no_error_witness :
    isochronePolys (alphashapeModel trivialHull trivialDelaunay)
        [(0, 0), (1, 1)] =
      alphashapeModel trivialHull trivialDelaunay [(0, 0), (1, 1)] 30 :=
  (c7_small_input_no_error trivialHull trivialDelaunay [(0, 0), (1, 1)]
    (by norm_num)
    ((List.Sublist.length_le (List.dedup_sublist _)).trans (by norm_num))).1

/-- C3 (amended): when the initial alpha shape at the configured
`alpha = 30` is a (nonempty) MultiPolygon, `generate_isochrone` retries
exactly once — at `alpha = 20`, which is two thirds of the original, not
half of it — and performs no further refinement; otherwise no retry
occurs at all.  (The claim's "half the original alpha" fails: see the
counterexample, where the retry alpha is 20 while half of 30 is 15.) -/
theorem c3_retry_once_at_twenty (ashape : List P → ℚ → Geom)
    (points : List P) :
    (((ashape points 30).truthy &&
        ((ashape points 30).geomType == GeomType.multiPolygon)) = true →
      isochroneAlphas ashape points = [30, 20] ∧
      isochronePolys ashape points = ashape points 20) ∧
    (((ashape points 30).truthy &&
        ((ashape points 30).geomType == GeomType.multiPolygon)) = false →
      isochroneAlphas ashape points = [30] ∧
      isochronePolys ashape points = ashape points 30) := by
  constructor <;> intro h <;>
    exact ⟨by simp [isochroneAlphas, h], by simp [isochronePolys, h]⟩

/-- C3 counterexample: an alphashape collaborator that fragments at
`alpha = 30` triggers exactly one retry, and the alpha used for it is
20 — not half the original value (15). -/
theorem c3_not_half_cex :
    isochroneAlphas mpOracle [(0, 0)] = [30, 20] ∧ ¬ ((20 : ℚ) = 30 / 2) :=
  ⟨rfl, by norm_num⟩

/-- C3 witness: the amended theorem applied to a fragmenting oracle and
to a non-fragmenting one. -/
theorem c3_retry_once_at_twenty_witness :
    (isochroneAlphas mpOracle [(0, 0)] = [30, 20] ∧
      isochronePolys mpOracle [(0, 0)] = mpOracle [(0, 0)] 20) ∧
    (isochroneAlphas polyOracle [(0, 0)] = [30] ∧
      isochronePolys polyOracle [(0, 0)] = polyOracle [(0, 0)] 30) :=
  ⟨(c3_retry_once_at_twenty mpOracle [(0, 0)]).1 rfl,
    (c3_retry_once_at_twenty polyOracle [(0, 0)]).2 rfl⟩

/-! ## Helper lemmas: export -/

theorem length_filterMap_map {α β γ : Type} (f : α → Option β) (g : α → β → γ) :
    ∀ l : List α, (l.filterMap fun a => (f a).map (g a)).length =
      (l.filter fun a => (f a).isSome).length := by
  intro l
  induction l with
  | nil => rfl
  | cons a t ih =>
    cases hfa : f a with
    | none => simp [List.filterMap_cons, List.filter_cons, hfa, ih]
    | some b => simp [List.filterMap_cons, List.filter_cons, hfa, ih]

/-- C8 (amended): the network export emits exactly one line feature per
segment that carries an explicit `geometry` attribute — a segment
without geometry is skipped by the `if geometry:` guard, not exported as
a straight line — and every exported segment feature's `road_name`
defaults to `"Unknown road"` when the segment has no name.  (The
claim's "never omitted" fails: see the counterexample, where the only
segment has no geometry and the export is empty.) -/
theorem c8_export_lines (g : Graph) :
    ((graphToGeojson g).filter Feature.isLine).length =
      (g.edges.filter fun e => e.geometry.isSome).length ∧
    (∀ e ∈ g.edges, ∀ geom, e.geometry = some geom →
      Feature.line geom e.u e.v (e.name.getD unknownRoad) ∈ graphToGeojson g) := by
  constructor
  · unfold graphToGeojson
    rw [List.filter_append]
    have h1 : (g.edges.filterMap fun e =>
        e.geometry.map fun geom =>
          Feature.line geom e.u e.v (e.name.getD unknownRoad)).filter
          Feature.isLine =
        g.edges.filterMap fun e =>
          e.geometry.map fun geom =>
            Feature.line geom e.u e.v (e.name.getD unknownRoad) := by
      rw [List.filter_eq_self]
      intro f hf
      rw [List.mem_filterMap] at hf
      obtain ⟨e, _, hfe⟩ := hf
      cases hge : e.geometry with
      | none => rw [hge] at hfe; cases hfe
      | some geom =>
        rw [hge] at hfe
        simp only [Option.map_some', Option.some_inj] at hfe
        rw [← hfe]
        rfl
    have h2 : (g.nodes.filterMap fun nd =>
        nd.2.position.map fun p => Feature.pointF p nd.1).filter
          Feature.isLine = [] := by
      rw [List.filter_eq_nil_iff]
      intro f hf
      rw [List.mem_filterMap] at hf
      obtain ⟨nd, _, hfn⟩ := hf
      cases hpn : nd.2.position with
      | none => rw [hpn] at hfn; cases hfn
      | some p =>
        rw [hpn] at hfn
        simp only [Option.map_some', Option.some_inj] at hfn
        rw [← hfn]
        simp [Feature.isLine]
    rw [h1, h2, List.append_nil]
    exact length_filterMap_map Edge.geometry
      (fun e geom => Feature.line geom e.u e.v (e.name.getD unknownRoad)) g.edges
  · intro e he geom hgeom
    unfold graphToGeojson
    rw [List.mem_append]
    left
    rw [List.mem_filterMap]
    exact ⟨e, he, by rw [hgeom]; rfl⟩

/-- C8 counterexample: a subgraph whose only segment carries no
`geometry` attribute is exported with no features at all — the segment
is omitted rather than drawn as a straight line between its endpoints. -/
theorem c8_omitted_segment_cex :
    graphToGeojson exNoGeomGraph = [] ∧ exNoGeomGraph.edges.length = 1 :=
  ⟨rfl, rfl⟩

/-- C8 witness: the amended theorem applied to a one-segment graph with
explicit geometry and no name. -/
theorem c8_export_lines_witness :
    Feature.line [(0, 0), (1, 1)] 0 1 unknownRoad ∈ graphToGeojson exGeomGraph :=
  (c8_export_lines exGeomGraph).2
    { u := 0, v := 1, length := 100, geometry := some [(0, 0), (1, 1)] }
    (by simp [exGeomGraph]) [(0, 0), (1, 1)] rfl

/-! ## Helper lemmas: the lru cache -/

theorem cacheLookup_cons_self (k : CKey) (r : Geom) (c : List (CKey × Geom)) :
    cacheLookup ((k, r) :: c) k = some r := by
  unfold cacheLookup
  rw [List.find?_cons_of_pos _ (by simp)]
  rfl

theorem genIso_cache_hit (nearest : Graph → ℚ → ℚ → ℕ)
    (ashape : List P → ℚ → Geom) (s : GenState) (lat lon t : ℚ) (r : Geom)
    (h : cacheLookup s.cache (lat, lon, t) = some r) :
    (generateIsochroneCached nearest ashape s lat lon t).1 = r := by
  unfold generateIsochroneCached
  rw [h]

/-- C10 (confirmed): `generate_isochrone` is memoized per generator by
the exact `(lat, lon, max_drive_time)` argument triple.  After any call,
the produced polygon sits in the cache under that key, and an immediately
repeated call with identical arguments returns exactly the first call's
polygon — even if the underlying network graph is replaced in between,
because on a hit the body (and hence `self.G`) is never consulted. -/
theorem c10_memoized_ignores_graph (nearest : Graph → ℚ → ℚ → ℕ)
    (ashape : List P → ℚ → Geom) (s : GenState) (lat lon t : ℚ) (G2 : Graph) :
    cacheLookup ((generateIsochroneCached nearest ashape s lat lon t).2).cache
        (lat, lon, t) =
      some ((generateIsochroneCached nearest ashape s lat lon t).1) ∧
    (generateIsochroneCached nearest ashape
        { (generateIsochroneCached nearest ashape s lat lon t).2 with g := G2 }
        lat lon t).1 =
      (generateIsochroneCached nearest ashape s lat lon t).1 := by
  have hcache : cacheLookup
      ((generateIsochroneCached nearest ashape s lat lon t).2).cache
      (lat, lon, t) =
      some ((generateIsochroneCached nearest ashape s lat lon t).1) := by
    unfold generateIsochroneCached
    cases h : cacheLookup s.cache (lat, lon, t) with
    | some r => exact cacheLookup_cons_self _ r _
    | none =>
      simp only
      rw [List.take_succ_cons]
      exact cacheLookup_cons_self _ _ _
  exact ⟨hcache, genIso_cache_hit nearest ashape _ lat lon t _ hcache⟩
